import Mathlib

/-!
Verification of the jjdag terminal dashboard core: a shallow embedding of the
chord-resolution trie (command_tree.rs), the model state machine and command
builders (model.rs), the command-queue executor (model.rs), and the free-text
input service (shell_out.rs), together with theorems settling the spec claims.

Conventions of the embedding:
  - Rust `String` is Lean `String`; byte-level operations (line splitting,
    trimming, lexicographic comparison) are modelled on the underlying
    character list, which coincides with the byte view on the ASCII data the
    program manipulates.
  - ratatui `Span`/`Line`/`Text` are modelled structurally: a span is content
    plus the foreground color the source sets (the only style field the source
    compares or branches on); a line is a list of spans; a text is a list of
    lines.
  - The log-tree view model (log_tree.rs) and the terminal are not part of
    src/; following spec section 6 they are abstracted at their interface:
    selection resolution becomes explicit optional fields of the model state,
    and `load` becomes a `World` function from repository and revset to a
    result.  External command execution is likewise a function from a command
    descriptor to its run result.
-/

namespace Jjdag

/-- Foreground colors the source attaches to spans (the only style component
the source code ever compares or branches on). -/
inductive Color where
  | red
  | green
  | blue
  | yellow
  deriving DecidableEq, Repr

/-- Model of a ratatui Span: its text content and the foreground color set by
the source (none for Span::raw). -/
structure Span where
  content : String
  fg : Option Color
  deriving DecidableEq, Repr

/-- Span::raw -/
def Span.raw (s : String) : Span := ⟨s, none⟩

/-- Span::styled with a foreground color -/
def Span.fgc (s : String) (c : Color) : Span := ⟨s, some c⟩

/-- Model of a ratatui Line: its list of spans. -/
abbrev RLine := List Span

/-- Model of a ratatui Text: its list of lines. -/
abbrev RText := List RLine

/-- Text::from(single string) as used for notices such as Invalid selection. -/
def textRaw (s : String) : RText := [[Span.raw s]]

/-- A single apostrophe character, used by notice strings in the source. -/
def sq : String := String.singleton (Char.ofNat 39)

/-- Key codes the program consumes (crossterm KeyCode, restricted to the
variants the command tree and event handler use). -/
inductive KeyCode where
  | char (c : Char)
  | enter
  | tab
  | esc
  deriving DecidableEq, Repr

/-- Display of a key code (crossterm Display impl), used when registering help
entries and when printing the unbound-suffix notice. -/
def keyCodeDisplay : KeyCode → String
  | .char c => String.singleton c
  | .enter => "Enter"
  | .tab => "Tab"
  | .esc => "Esc"

/-- Byte-lexicographic less-or-equal on character lists; on the ASCII data the
program compares, this coincides with Rust String cmp (byte order). -/
def charLe : List Char → List Char → Bool
  | [], _ => true
  | _ :: _, [] => false
  | a :: as, b :: bs =>
    if a.toNat = b.toNat then charLe as bs else decide (a.toNat < b.toNat)

/-- Lowercased character view of a string (Rust to_lowercase on the ASCII data
in play). -/
def lowerChars (s : String) : List Char := s.data.map Char.toLower

/-- Splits a character list at newline characters (all pieces kept). -/
def splitNL : List Char → List (List Char)
  | [] => [[]]
  | c :: cs =>
    match splitNL cs with
    | [] => if c = '\n' then [[], []] else [[c]]
    | h :: t => if c = '\n' then [] :: h :: t else (c :: h) :: t

/-- Drops one trailing carriage return, as Rust str::lines does per line. -/
def stripCR (l : List Char) : List Char :=
  if l.getLast? = some '\r' then l.dropLast else l

/-- Rust str::lines: split at newlines, a final line ending produces no extra
empty line, and a trailing carriage return is stripped from each line. -/
def rustLines (s : String) : List (List Char) :=
  match s.data with
  | [] => []
  | d =>
    let parts := splitNL d
    let parts := if parts.getLastD [] = [] then parts.dropLast else parts
    parts.map stripCR

/-- Rust str::trim on the character list (whitespace stripped at both ends). -/
def trimChars (l : List Char) : List Char :=
  ((l.dropWhile Char.isWhitespace).reverse.dropWhile Char.isWhitespace).reverse

/-- Joins character-list lines with newline separators. -/
def joinNL : List (List Char) → List Char
  | [] => []
  | [l] => l
  | l :: ls => l ++ '\n' :: joinNL ls

/-- The Message enum of update.rs: the closed set of intents the command tree
resolves to and the state machine dispatches on. -/
inductive Message where
  | abandon
  | abandonRestoreDescendants
  | abandonRetainBookmarks
  | absorb
  | absorbInto
  | bookmarkCreate
  | bookmarkDelete
  | bookmarkForget
  | bookmarkForgetIncludeRemotes
  | bookmarkMove
  | bookmarkMoveAllowBackwards
  | bookmarkMoveTug
  | bookmarkRename
  | bookmarkSet
  | bookmarkTrack
  | bookmarkUntrack
  | clear
  | commit
  | describe
  | duplicate
  | duplicateInsertAfter
  | duplicateInsertBefore
  | duplicateOnto
  | edit
  | evolog
  | evologPatch
  | fileTrack
  | fileUntrack
  | gitFetch
  | gitFetchAllRemotes
  | gitFetchBranch
  | gitFetchRemote
  | gitFetchTracked
  | gitPush
  | gitPushAll
  | gitPushBookmark
  | gitPushChange
  | gitPushDeleted
  | gitPushNamed
  | gitPushRevision
  | gitPushTracked
  | interdiffFromSelection
  | interdiffFromSelectionToDestination
  | interdiffToSelection
  | leftMouseClick (row column : Nat)
  | metaeditForceRewrite
  | metaeditSetAuthor
  | metaeditSetAuthorTimestamp
  | metaeditUpdateAuthor
  | metaeditUpdateAuthorTimestamp
  | metaeditUpdateChangeId
  | new
  | newAfterTrunk
  | newAfterTrunkSync
  | newBefore
  | newInsertAfter
  | next
  | nextConflict
  | nextEdit
  | nextEditOffset
  | nextNoEdit
  | nextNoEditOffset
  | nextOffset
  | parallelize
  | parallelizeRange
  | parallelizeRevset
  | prev
  | prevConflict
  | prevEdit
  | prevEditOffset
  | prevNoEdit
  | prevNoEditOffset
  | prevOffset
  | quit
  | rebaseAfterDestination
  | rebaseAfterDestinationNoDescendants
  | rebaseBeforeDestination
  | rebaseBeforeDestinationNoDescendants
  | rebaseBranchOntoDestination
  | rebaseBranchOntoTrunk
  | rebaseOntoDestination
  | rebaseOntoDestinationNoDescendants
  | rebaseOntoTrunk
  | redo
  | refresh
  | restore
  | restoreFrom
  | restoreFromInto
  | restoreInto
  | restoreRestoreDescendants
  | revert
  | revertInsertAfter
  | revertInsertBefore
  | revertOntoDestination
  | rightMouseClick (row column : Nat)
  | saveSelection
  | scrollDown
  | scrollDownPage
  | scrollUp
  | scrollUpPage
  | selectCurrentWorkingCopy
  | selectNextNode
  | selectNextSiblingNode
  | selectParentNode
  | selectPrevNode
  | selectPrevSiblingNode
  | setRevset
  | showHelp
  | sign
  | signRange
  | simplifyParents
  | simplifyParentsSource
  | squash
  | squashInto
  | status
  | toggleIgnoreImmutable
  | toggleLogListFold
  | undo
  | unsign
  | unsignRange
  | view
  | viewFromSelection
  | viewFromSelectionToDestination
  | viewToSelection

/-- Grouped help entries of a trie node: group label to ordered list of
(key label, description) pairs, in registration order (IndexMap). -/
abbrev HelpEntries := List (String × List (String × String))

/-- A node of the command tree: optionally a children table (key to child
node, plus the grouped help entries registered alongside) and optionally an
action Message.  Mirrors CommandTreeNode and CommandTreeNodeChildren of
command_tree.rs, with the HashMap modelled as an association list. -/
inductive CommandTreeNode where
  | mk (children : Option (List (KeyCode × CommandTreeNode) × HelpEntries))
      (action : Option Message)

/-- Children table and help entries of a node, when interior. -/
def CommandTreeNode.children (n : CommandTreeNode) :
    Option (List (KeyCode × CommandTreeNode) × HelpEntries) :=
  match n with
  | .mk c _ => c

/-- Action of a node, when it wraps one. -/
def CommandTreeNode.action (n : CommandTreeNode) : Option Message :=
  match n with
  | .mk _ a => a

/-- CommandTreeNode::new_children: an interior node with an empty table. -/
def CommandTreeNode.newChildren : CommandTreeNode := .mk (some ([], [])) none

/-- CommandTreeNode::new_action: a leaf action node. -/
def CommandTreeNode.newAction (m : Message) : CommandTreeNode := .mk none (some m)

/-- CommandTreeNode::new_action_with_children: an action node that also owns
an (initially empty) children table. -/
def CommandTreeNode.newActionWithChildren (m : Message) : CommandTreeNode :=
  .mk (some ([], [])) (some m)

/-- CommandTreeNodeChildren::get_node: lookup of one key in the table. -/
def childGetNode (nodes : List (KeyCode × CommandTreeNode)) (k : KeyCode) :
    Option CommandTreeNode :=
  match nodes.find? (fun p => decide (p.1 = k)) with
  | none => none
  | some p => some p.2

/-- CommandTreeNodeChildren::add_child: insert the node under the key (HashMap
insert) and append a (key label, description) pair to the help group,
creating the group at the end on first use (IndexMap entry or_default). -/
def addChild (cs : List (KeyCode × CommandTreeNode) × HelpEntries)
    (helpGroupText helpText : String) (k : KeyCode) (n : CommandTreeNode) :
    List (KeyCode × CommandTreeNode) × HelpEntries :=
  let nodes := cs.1.filter (fun p => decide (p.1 ≠ k)) ++ [(k, n)]
  let entry := (keyCodeDisplay k, helpText)
  let rec addHelp : HelpEntries → HelpEntries
    | [] => [(helpGroupText, [entry])]
    | g :: gs =>
      if g.1 = helpGroupText then (g.1, g.2 ++ [entry]) :: gs
      else g :: addHelp gs
  (nodes, addHelp cs.2)

/-- CommandTree::get_node: walk the chord one key at a time from the given
node; a missing edge, or descending into a node with no children, yields
none. -/
def get_node : CommandTreeNode → List KeyCode → Option CommandTreeNode
  | n, [] => some n
  | n, k :: ks =>
    match n.children with
    | none => none
    | some cs =>
      match childGetNode cs.1 k with
      | none => none
      | some m => get_node m ks

/-- Case-insensitive byte-lexicographic order on (key label, description)
pairs by key label: the comparator CommandTreeNodeChildren::get_help_entries
sorts each group with. -/
def keyLabelLe (a b : String × String) : Bool :=
  charLe (lowerChars a.1) (lowerChars b.1)

/-- Stable insertion of an element in front of the first list element it
compares less-or-equal to. -/
def insertLe (le : α → α → Bool) (x : α) : List α → List α
  | [] => [x]
  | y :: ys => if le x y then x :: y :: ys else y :: insertLe le x ys

/-- Stable sort by a boolean less-or-equal comparator, modelling Rust's
stable slice sort_by (for a total transitive comparator the stable sorted
permutation is unique, so any stable sort realizes it). -/
def sortByLe (le : α → α → Bool) : List α → List α
  | [] => []
  | x :: xs => insertLe le x (sortByLe le xs)

/-- CommandTreeNodeChildren::get_help_entries: the help groups in
registration order, each group sorted (stably) by lowercased key label. -/
def getHelpEntries (cs : List (KeyCode × CommandTreeNode) × HelpEntries) :
    HelpEntries :=
  cs.2.map (fun g => (g.1, sortByLe keyLabelLe g.2))

/-- A run of n space characters. -/
def spacesStr (n : Nat) : String := String.mk (List.replicate n ' ')

/-- Right-pads a string with spaces to the given width (Rust format width). -/
def padRight (s : String) (w : Nat) : String :=
  s ++ spacesStr (w - s.length)

/-- UTF-8 byte length of a string (Rust str::len). -/
def rustByteLen (s : String) : Nat :=
  s.data.foldl (fun n c => n + c.utf8Size) 0

/-- Rust str::is_ascii. -/
def strIsAscii (s : String) : Bool := s.data.all (fun c => c.toNat ≤ 127)

/-- Slice::chunks n for positive n: nonempty runs of at most n elements. -/
def chunksOf (n : Nat) : List (String × String) → List (List (String × String))
  | [] => []
  | x :: xs => (x :: xs.take (n - 1)) :: chunksOf n (xs.drop (n - 1))
termination_by l => l.length
decreasing_by
  simp only [List.length_drop, List.length_cons]
  omega

/-- COL_WIDTH of render_help_text. -/
def COL_WIDTH : Nat := 26

/-- MAX_ENTRIES_PER_COL of render_help_text. -/
def MAX_ENTRIES_PER_COL : Nat := 14

/-- One rendered help column: a styled header (blank after the first chunk of
a group), then one line per entry, each padded toward COL_WIDTH columns with
the source's two-column adjustment for a non-ASCII key label. -/
def renderHelpColumn (groupHelpText : String) (i : Nat)
    (chunk : List (String × String)) : List RLine :=
  let header := if i = 0 then groupHelpText else ""
  let headerLine : RLine := [Span.fgc (padRight header COL_WIDTH) .blue]
  let entryLines := chunk.map (fun e =>
    let numCols := rustByteLen e.1 + 1 + rustByteLen e.2
    let numCols := if strIsAscii e.1 then numCols else numCols - 2
    let padding := spacesStr (COL_WIDTH - numCols)
    ([Span.fgc e.1 .green, Span.raw " ", Span.raw e.2, Span.raw padding] : RLine))
  headerLine :: entryLines

/-- Help columns of render_help_text: each group split into chunks of at most
MAX_ENTRIES_PER_COL entries, one column per chunk. -/
def renderHelpColumns (entries : HelpEntries) : List (List RLine) :=
  entries.flatMap (fun g =>
    ((chunksOf MAX_ENTRIES_PER_COL g.2).enum).map (fun ic =>
      renderHelpColumn g.1 ic.1 ic.2))

/-- An all-blank line of COL_WIDTH spaces, padding short columns. -/
def emptyHelpLine : RLine := [Span.raw (spacesStr COL_WIDTH)]

/-- Rust render_help_text: lay the columns side by side; each row starts with
one space and concatenates the spans of every column's line at that row,
substituting the blank line where a column is shorter.  (The source unwraps
the row count, which panics on an empty entry list; the embedding uses 0.) -/
def renderHelpText (entries : HelpEntries) : RText :=
  let columns := renderHelpColumns entries
  let numRows := (columns.map List.length).foldl max 0
  (List.range numRows).map (fun i =>
    [Span.raw " "] ++ columns.flatMap (fun col => col.getD i emptyHelpLine))

/-- CommandTreeNodeChildren::get_help. -/
def getHelp (cs : List (KeyCode × CommandTreeNode) × HelpEntries) : RText :=
  renderHelpText (getHelpEntries cs)

/-- The constant first span of every unbound-suffix notice line. -/
def unboundMarker : Span := Span.fgc " Unbound suffix: " .red

/-- The unbound-suffix notice line for one key. -/
def unboundErrorLine (k : KeyCode) : RLine :=
  [unboundMarker, Span.raw sq, Span.fgc (keyCodeDisplay k) .green, Span.raw sq]

/-- Rust display_unbound_error_lines of command_tree.rs.  Decides whether to
prepend a blank separator by comparing the first span of the FIRST notice
line against the (constant) first span of the error line, pops the last two
lines when the LAST line also starts with that span, then appends the fresh
error line.  (The source unwraps the first line and indexes its spans; the
embedding substitutes a raw empty span where the source would panic.) -/
def displayUnboundErrorLines (info : Option RText) (k : KeyCode) :
    Option RText :=
  let errorLine := unboundErrorLine k
  match info with
  | none => some [errorLine]
  | some lines =>
    let firstSpan := (lines.headD []).headD (Span.raw "")
    let addBlankLine := decide (firstSpan ≠ unboundMarker)
    let lastLine := lines.getLastD []
    let lines :=
      if lastLine ≠ [] ∧ lastLine.headD (Span.raw "") = unboundMarker then
        lines.dropLast.dropLast
      else lines
    let lines := if addBlankLine then lines ++ [([] : RLine)] else lines
    some (lines ++ [errorLine])

/-- Outcome of Model::handle_command_key: the optionally resolved Message and
the updated chord buffer and notice area. -/
structure KeyStepResult where
  message : Option Message
  keys : List KeyCode
  info : Option RText

/-- Rust Model::handle_command_key: push the key onto the chord, look the
chord up in the tree; on a miss pop the key back off and show the
unbound-suffix notice; on an interior node show its help menu; on an action
node return the message, clearing the chord only when the node has no
children. -/
def handle_command_key (tree : CommandTreeNode) (keys : List KeyCode)
    (info : Option RText) (k : KeyCode) : KeyStepResult :=
  let pushed := keys ++ [k]
  match get_node tree pushed with
  | none => ⟨none, keys, displayUnboundErrorLines info k⟩
  | some node =>
    let info :=
      match node.children with
      | some cs => some (getHelp cs)
      | none => info
    match node.action with
    | some message =>
      ⟨some message, if node.children.isNone then [] else pushed, info⟩
    | none => ⟨none, pushed, info⟩

/-- The children table of the node reached by key a in CommandTree::new,
built by the add_child calls the source's add_children performs for the
entries registered under that prefix: Abandon / Selection at a a, Abandon /
Selection (retain bookmarks) at a b, and Abandon / Selection (restore
descendants) at a d. -/
def abandonChildren : List (KeyCode × CommandTreeNode) × HelpEntries :=
  addChild
    (addChild
      (addChild ([], []) "Abandon" "Selection" (.char 'a')
        (CommandTreeNode.newAction .abandon))
      "Abandon" "Selection (retain bookmarks)" (.char 'b')
      (CommandTreeNode.newAction .abandonRetainBookmarks))
    "Abandon" "Selection (restore descendants)" (.char 'd')
    (CommandTreeNode.newAction .abandonRestoreDescendants)

/-- Global flags prepended to every invocation (model.rs GlobalArgs). -/
structure GlobalArgs where
  repository : String
  ignoreImmutable : Bool
  deriving DecidableEq, Repr

/-- Which captured stream an invocation surfaces (shell_out.rs). -/
inductive ReturnOutput where
  | stdout
  | stderr
  deriving DecidableEq, Repr

/-- An invocation descriptor (shell_out.rs JjCommand): argument vector,
global flags, whether it runs interactively (interactive_term present),
which stream it returns, and the resync-on-success flag. -/
structure JjCommand where
  args : List String
  globalArgs : GlobalArgs
  interactive : Bool
  returnOutput : ReturnOutput
  sync : Bool
  deriving DecidableEq, Repr

/-- JjCommand::_new (sync = true). -/
def JjCommand.make (args : List String) (ga : GlobalArgs)
    (interactive : Bool) (ro : ReturnOutput) : JjCommand :=
  ⟨args, ga, interactive, ro, true⟩

/-- JjCommand::_new_skip_sync (sync = false). -/
def JjCommand.makeSkipSync (args : List String) (ga : GlobalArgs)
    (interactive : Bool) (ro : ReturnOutput) : JjCommand :=
  ⟨args, ga, interactive, ro, false⟩

/-- JjCommand::abandon. -/
def JjCommand.abandon (changeId : String) (ga : GlobalArgs) : JjCommand :=
  JjCommand.make ["abandon", changeId] ga false .stderr

/-- JjCommand::duplicate. -/
def JjCommand.duplicate (changeId : String) (ga : GlobalArgs) : JjCommand :=
  JjCommand.make ["duplicate", changeId] ga false .stderr

/-- JjCommand::duplicate_onto. -/
def JjCommand.duplicateOnto (changeId destChangeId : String)
    (ga : GlobalArgs) : JjCommand :=
  JjCommand.make ["duplicate", changeId, "--onto", destChangeId] ga false .stderr

/-- JjCommand::parallelize. -/
def JjCommand.parallelize (revset : String) (ga : GlobalArgs) : JjCommand :=
  JjCommand.make ["parallelize", revset] ga false .stderr

/-- JjCommand::sign. -/
def JjCommand.sign (revset : String) (ga : GlobalArgs) : JjCommand :=
  JjCommand.make ["sign", "-r", revset] ga false .stderr

/-- JjCommand::unsign. -/
def JjCommand.unsign (revset : String) (ga : GlobalArgs) : JjCommand :=
  JjCommand.make ["unsign", "-r", revset] ga false .stderr

/-- JjCommand::rebase_branch_onto_destination. -/
def JjCommand.rebaseBranchOntoDestination (sourceChangeId destChangeId : String)
    (ga : GlobalArgs) : JjCommand :=
  JjCommand.make ["rebase", "--branch", sourceChangeId, "--onto", destChangeId]
    ga false .stderr

/-- JjCommand::fetch. -/
def JjCommand.fetch (ga : GlobalArgs) : JjCommand :=
  JjCommand.make ["git", "fetch"] ga false .stderr

/-- JjCommand::new_after_trunk. -/
def JjCommand.newAfterTrunk (ga : GlobalArgs) : JjCommand :=
  JjCommand.make ["new", "trunk()"] ga false .stderr

/-- JjCommand::to_lines: the invocation line followed by a blank line. -/
def JjCommand.to_lines (c : JjCommand) : List RLine :=
  [[Span.fgc "❯" .yellow, Span.raw " jj ",
    Span.raw (String.intercalate " " c.args)],
   [Span.raw ""]]

/-- Result of JjCommand::run against the external tool: captured output on a
zero exit, the (trimmed) error stream on a non-zero exit, or an
infrastructure failure that propagates out of the event loop. -/
inductive RunResult where
  | ok (output : String)
  | failed (stderr : String)
  | other (err : String)
  deriving DecidableEq, Repr

/-- Abstract log-tree state.  Modelled from the spec: the log-tree view model
(log_tree.rs) is not under src/; spec section 6 reduces it to its interface,
and the claims only need its identity across operations. -/
abbrev LogState := Nat

/-- Environment for view-model loading.  Modelled from the spec: section 6
gives the collaborator operation load(repository, revset) -> Result; the
function maps the global flags and revset to a fresh log state or an error
message. -/
structure World where
  load : GlobalArgs → String → Except String LogState

/-- ansi_to_tui IntoText on a captured output string, modelled as a split
into raw lines. -/
def intoTextLines (s : String) : List RLine :=
  (rustLines s).map (fun l => [Span.raw (String.mk l)])

/-- The model state (model.rs Model), restricted to the fields the verified
claims exercise.  The selection fields stand for the lookups
get_selected_change_id / get_selected_file_path / log_selected into the
log-tree collaborator; modelled from the spec (section 6 resolve, which may
return none for a vanished selection). -/
structure Model where
  globalArgs : GlobalArgs
  revset : String
  commandKeys : List KeyCode
  queuedJjCommands : List JjCommand
  accumulatedCommandOutput : List RLine
  savedChangeId : Option String
  savedFilePath : Option String
  savedLogIndex : Option Nat
  infoList : Option RText
  jjLog : LogState
  selChangeId : Option String
  selFilePath : Option String
  selLogIndex : Nat
  deriving DecidableEq, Repr

/-- Rust Model::clear: drop the notice, the saved-selection register, the
chord buffer, the pending queue and the output accumulator. -/
def Model.clear (m : Model) : Model :=
  { m with
    infoList := none
    savedLogIndex := none
    savedChangeId := none
    savedFilePath := none
    commandKeys := []
    queuedJjCommands := []
    accumulatedCommandOutput := [] }

/-- Rust Model::cancelled: the Cancelled notice. -/
def Model.cancelled (m : Model) : Model :=
  { m with infoList := some (textRaw "Cancelled") }

/-- Rust Model::invalid_selection: the Invalid selection notice. -/
def Model.invalidSelection (m : Model) : Model :=
  { m with infoList := some (textRaw "Invalid selection") }

/-- Rust Model::sync: reload the log tree for the current revset through the
collaborator. -/
def Model.sync (w : World) (m : Model) : Except String Model :=
  match w.load m.globalArgs m.revset with
  | .error e => .error e
  | .ok l => .ok { m with jjLog := l }

/-- Rust Model::update_info_list_for_queue: show the accumulated output plus,
when a command is pending, its invocation line and a Running marker. -/
def Model.updateInfoListForQueue (m : Model) : Model :=
  let lines := m.accumulatedCommandOutput ++
    (match m.queuedJjCommands.head? with
     | some c => c.to_lines ++ [[Span.raw "Running..."]]
     | none => [])
  { m with infoList := some lines }

/-- Rust Model::queue_jj_commands: reset the accumulator, store the queue,
and render the about-to-run notice. -/
def Model.queueJjCommands (m : Model) (cmds : List JjCommand) : Model :=
  Model.updateInfoListForQueue
    { m with accumulatedCommandOutput := [], queuedJjCommands := cmds }

/-- Rust Model::save_selection: stash the current selection in the register,
or clear everything and report Invalid selection when no change is
selected. -/
def Model.saveSelection (m : Model) : Model :=
  match m.selChangeId with
  | none => Model.invalidSelection (Model.clear m)
  | some changeId =>
    { m with
      savedChangeId := some changeId
      savedFilePath := m.selFilePath
      savedLogIndex := some m.selLogIndex }

/-- Rust Model::jj_abandon. -/
def Model.jjAbandon (m : Model) : Model :=
  match m.selChangeId with
  | none => Model.invalidSelection m
  | some changeId =>
    Model.queueJjCommands m [JjCommand.abandon changeId m.globalArgs]

/-- Rust Model::jj_duplicate. -/
def Model.jjDuplicate (m : Model) : Model :=
  match m.selChangeId with
  | none => Model.invalidSelection m
  | some changeId =>
    Model.queueJjCommands m [JjCommand.duplicate changeId m.globalArgs]

/-- Rust Model::jj_duplicate_onto. -/
def Model.jjDuplicateOnto (m : Model) : Model :=
  match m.savedChangeId with
  | none => Model.invalidSelection m
  | some sourceChangeId =>
    match m.selChangeId with
    | none => Model.invalidSelection m
    | some destChangeId =>
      Model.queueJjCommands m
        [JjCommand.duplicateOnto sourceChangeId destChangeId m.globalArgs]

/-- Rust Model::jj_parallelize: synthesizes the revset id-::id for the
selected change and its immediate successors. -/
def Model.jjParallelize (m : Model) : Model :=
  match m.selChangeId with
  | none => Model.invalidSelection m
  | some changeId =>
    let revset := changeId ++ "-::" ++ changeId
    Model.queueJjCommands m [JjCommand.parallelize revset m.globalArgs]

/-- Rust Model::jj_parallelize_range: synthesizes the inclusive range
from::to between the saved and the selected change. -/
def Model.jjParallelizeRange (m : Model) : Model :=
  match m.savedChangeId with
  | none => Model.invalidSelection m
  | some fromChangeId =>
    match m.selChangeId with
    | none => Model.invalidSelection m
    | some toChangeId =>
      let revset := fromChangeId ++ "::" ++ toChangeId
      Model.queueJjCommands m [JjCommand.parallelize revset m.globalArgs]

/-- Rust Model::jj_sign. -/
def Model.jjSign (m : Model) : Model :=
  match m.selChangeId with
  | none => Model.invalidSelection m
  | some changeId =>
    Model.queueJjCommands m [JjCommand.sign changeId m.globalArgs]

/-- Rust Model::jj_sign_range. -/
def Model.jjSignRange (m : Model) : Model :=
  match m.savedChangeId with
  | none => Model.invalidSelection m
  | some fromChangeId =>
    match m.selChangeId with
    | none => Model.invalidSelection m
    | some toChangeId =>
      let revset := fromChangeId ++ "::" ++ toChangeId
      Model.queueJjCommands m [JjCommand.sign revset m.globalArgs]

/-- Rust Model::jj_unsign. -/
def Model.jjUnsign (m : Model) : Model :=
  match m.selChangeId with
  | none => Model.invalidSelection m
  | some changeId =>
    Model.queueJjCommands m [JjCommand.unsign changeId m.globalArgs]

/-- Rust Model::jj_unsign_range. -/
def Model.jjUnsignRange (m : Model) : Model :=
  match m.savedChangeId with
  | none => Model.invalidSelection m
  | some fromChangeId =>
    match m.selChangeId with
    | none => Model.invalidSelection m
    | some toChangeId =>
      let revset := fromChangeId ++ "::" ++ toChangeId
      Model.queueJjCommands m [JjCommand.unsign revset m.globalArgs]

/-- Rust Model::jj_rebase_branch_onto_destination: requires the saved
register for the branch side and the current selection for the
destination. -/
def Model.jjRebaseBranchOntoDestination (m : Model) : Model :=
  match m.savedChangeId with
  | none => Model.invalidSelection m
  | some sourceChangeId =>
    match m.selChangeId with
    | none => Model.invalidSelection m
    | some destChangeId =>
      Model.queueJjCommands m
        [JjCommand.rebaseBranchOntoDestination sourceChangeId destChangeId
          m.globalArgs]

/-- Rust Model::jj_new_after_trunk_sync: the fetch-then-new compound queue. -/
def Model.jjNewAfterTrunkSync (m : Model) : Model :=
  Model.queueJjCommands m
    [JjCommand.fetch m.globalArgs, JjCommand.newAfterTrunk m.globalArgs]

/-- The comment marker of the free-text input service. -/
def jjMarker : List Char := ['J', 'J', ':']

/-- Comment-stripping and trimming of the edited buffer in
get_input_from_editor: drop every line starting with the JJ: marker, rejoin
with newlines, and trim the result. -/
def stripJjComments (contents : String) : String :=
  String.mk (trimChars (joinNL
    ((rustLines contents).filter (fun l => ! jjMarker.isPrefixOf l))))

/-- Rust get_input_from_editor of shell_out.rs.  The starting and help text
seed the temporary file but do not influence the returned value, which is
computed from the buffer contents after the editor ran; a non-zero editor
exit is an error (bail), an empty stripped buffer is cancellation (none),
anything else is the stripped text. -/
def getInputFromEditor (startingText helpText : Option String)
    (editorExitOk : Bool) (contents : String) :
    Except String (Option String) :=
  let _ := startingText
  let _ := helpText
  if ! editorExitOk then .error "Editor exited with non-zero status"
  else
    let stripped := stripJjComments contents
    if stripped = "" then .ok none else .ok (some stripped)

/-- Rust Model::jj_parallelize_revset: free text from the editor, Cancelled
notice on a none result, otherwise queue the parallelize invocation. -/
def Model.jjParallelizeRevset (m : Model) (editorExitOk : Bool)
    (contents : String) : Except String Model :=
  match getInputFromEditor none (some "Enter the revset to parallelize")
      editorExitOk contents with
  | .error e => .error e
  | .ok none => .ok (Model.cancelled m)
  | .ok (some revset) =>
    .ok (Model.queueJjCommands m [JjCommand.parallelize revset m.globalArgs])

/-- Rust Model::display_error_lines. -/
def displayErrorLines (err : String) : RText := intoTextLines err

/-- Rust Model::set_revset: obtain a new revset from the editor (Cancelled
notice on cancellation), store it, reload; on a reload error show the error
and restore the previous revset; on success keep the new revset and confirm
it in the notice. -/
def Model.setRevset (w : World) (m : Model) (editorExitOk : Bool)
    (contents : String) : Except String Model :=
  match getInputFromEditor (some m.revset) (some "Enter the new revset")
      editorExitOk contents with
  | .error e => .error e
  | .ok none => .ok (Model.cancelled m)
  | .ok (some newRevset) =>
    let m1 := { m with revset := newRevset }
    match Model.sync w m1 with
    | .error err =>
      .ok { m1 with
            infoList := some (displayErrorLines err)
            revset := m.revset }
    | .ok m2 =>
      .ok { m2 with
            infoList := some
              (textRaw ("Revset set to " ++ sq ++ m2.revset ++ sq)) }

/-- Rust Model::process_jj_command_queue, one step: pop the front descriptor,
run it, append its invocation lines (after a blank separator when the
accumulator is nonempty) and its captured output or error stream; on the
last success show the accumulator and resync when flagged, on an
intermediate success re-render the about-to-run notice, on a failure show
the accumulator (the remaining descriptors were discarded by clear), and
propagate infrastructure errors. -/
def Model.processJjCommandQueue (runOf : JjCommand → RunResult) (w : World)
    (m : Model) : Except String Model :=
  match m.queuedJjCommands with
  | [] => .ok m
  | cmd :: rest =>
    let m := { m with queuedJjCommands := rest }
    let acc :=
      if m.accumulatedCommandOutput.isEmpty then m.accumulatedCommandOutput
      else m.accumulatedCommandOutput ++ [[Span.raw ""]]
    let acc := acc ++ cmd.to_lines
    match runOf cmd with
    | .ok output =>
      let acc := acc ++ intoTextLines output
      if rest.isEmpty then
        let finalOutput := acc
        let m1 := Model.clear { m with accumulatedCommandOutput := acc }
        let m2 := { m1 with infoList := some finalOutput }
        if cmd.sync then Model.sync w m2 else .ok m2
      else
        .ok (Model.updateInfoListForQueue
          { m with accumulatedCommandOutput := acc })
    | .failed stderr =>
      let acc := acc ++ intoTextLines stderr
      let m1 := Model.clear { m with accumulatedCommandOutput := acc }
      .ok { m1 with infoList := some acc }
    | .other e => .error e

/-- Iterates the queue processor the given number of outer-loop ticks. -/
def Model.processSteps (runOf : JjCommand → RunResult) (w : World) :
    Nat → Model → Except String Model
  | 0, m => .ok m
  | n + 1, m =>
    match Model.processJjCommandQueue runOf w m with
    | .error e => .error e
    | .ok m1 => Model.processSteps runOf w n m1

/-- One accumulator step of the executor: blank separator when nonempty, the
invocation lines, then the command's captured output or error stream. -/
def accumStep (runOf : JjCommand → RunResult) (acc : List RLine)
    (c : JjCommand) : List RLine :=
  let acc := if acc.isEmpty then acc else acc ++ [[Span.raw ""]]
  let acc := acc ++ c.to_lines
  match runOf c with
  | .ok output => acc ++ intoTextLines output
  | .failed stderr => acc ++ intoTextLines stderr
  | .other _ => acc

/-- The transcript the executor displays when the listed commands run in
order from the given accumulator and the last one fails: it mentions only
these commands. -/
def failTranscript (runOf : JjCommand → RunResult) (acc : List RLine) :
    List JjCommand → JjCommand → List RLine
  | [], bad => accumStep runOf acc bad
  | g :: gs, bad => failTranscript runOf (accumStep runOf acc g) gs bad

/-- The model state as Model::new leaves it (before the initial sync):
register, chord, queue, accumulator and notice all empty; repository flags,
revset, log state and selection as given. -/
def Model.initial (ga : GlobalArgs) (revset : String) (log : LogState)
    (selC selF : Option String) (selIdx : Nat) : Model :=
  { globalArgs := ga
    revset := revset
    commandKeys := []
    queuedJjCommands := []
    accumulatedCommandOutput := []
    savedChangeId := none
    savedFilePath := none
    savedLogIndex := none
    infoList := none
    jjLog := log
    selChangeId := selC
    selFilePath := selF
    selLogIndex := selIdx }

/-- The states reachable through the embedded operations of the model.  A
selectStep stands for the navigation, fold and mouse operations, which move
the selection (and the log-list lookups behind it) but touch neither the
register nor the queue; a keyStep is the chord handler's effect on the model
fields it mutates. -/
inductive Reach : Model → Prop where
  | init (ga : GlobalArgs) (revset : String) (log : LogState)
      (selC selF : Option String) (selIdx : Nat) :
      Reach (Model.initial ga revset log selC selF selIdx)
  | clearStep {m : Model} : Reach m → Reach (Model.clear m)
  | cancelledStep {m : Model} : Reach m → Reach (Model.cancelled m)
  | invalidStep {m : Model} : Reach m → Reach (Model.invalidSelection m)
  | selectStep {m : Model} (selC selF : Option String) (selIdx : Nat) :
      Reach m →
      Reach { m with
              selChangeId := selC
              selFilePath := selF
              selLogIndex := selIdx }
  | keyStep {m : Model} (tree : CommandTreeNode) (k : KeyCode) :
      Reach m →
      Reach { m with
              commandKeys := (handle_command_key tree m.commandKeys
                m.infoList k).keys
              infoList := (handle_command_key tree m.commandKeys
                m.infoList k).info }
  | saveStep {m : Model} : Reach m → Reach (Model.saveSelection m)
  | abandonStep {m : Model} : Reach m → Reach (Model.jjAbandon m)
  | duplicateStep {m : Model} : Reach m → Reach (Model.jjDuplicate m)
  | duplicateOntoStep {m : Model} : Reach m → Reach (Model.jjDuplicateOnto m)
  | parallelizeStep {m : Model} : Reach m → Reach (Model.jjParallelize m)
  | parallelizeRangeStep {m : Model} :
      Reach m → Reach (Model.jjParallelizeRange m)
  | parallelizeRevsetStep {m m1 : Model} (editorExitOk : Bool)
      (contents : String) :
      Reach m → Model.jjParallelizeRevset m editorExitOk contents = .ok m1 →
      Reach m1
  | signStep {m : Model} : Reach m → Reach (Model.jjSign m)
  | signRangeStep {m : Model} : Reach m → Reach (Model.jjSignRange m)
  | unsignStep {m : Model} : Reach m → Reach (Model.jjUnsign m)
  | unsignRangeStep {m : Model} : Reach m → Reach (Model.jjUnsignRange m)
  | rebaseBranchOntoDestinationStep {m : Model} :
      Reach m → Reach (Model.jjRebaseBranchOntoDestination m)
  | newAfterTrunkSyncStep {m : Model} :
      Reach m → Reach (Model.jjNewAfterTrunkSync m)
  | syncStep {m m1 : Model} (w : World) :
      Reach m → Model.sync w m = .ok m1 → Reach m1
  | setRevsetStep {m m1 : Model} (w : World) (editorExitOk : Bool)
      (contents : String) :
      Reach m → Model.setRevset w m editorExitOk contents = .ok m1 → Reach m1
  | processStep {m m1 : Model} (runOf : JjCommand → RunResult) (w : World) :
      Reach m → Model.processJjCommandQueue runOf w m = .ok m1 → Reach m1

/-- Case-insensitive order on help entries by description text, the order the
spec asserts for grouped help listings. -/
def descriptionLe (a b : String × String) : Bool :=
  charLe (lowerChars a.2) (lowerChars b.2)

/-- Two model states agree on the three saved-selection register fields. -/
def regEq (a b : Model) : Prop :=
  a.savedChangeId = b.savedChangeId ∧
  a.savedFilePath = b.savedFilePath ∧
  a.savedLogIndex = b.savedLogIndex

/-- All three saved-selection register fields are absent. -/
def regCleared (a : Model) : Prop :=
  a.savedChangeId = none ∧ a.savedFilePath = none ∧ a.savedLogIndex = none

/-- Demonstration global flags for concrete scenarios. -/
def gaDemo : GlobalArgs := ⟨"/repo", false⟩

/-- Demonstration model: fresh state over a repository with the change x
selected. -/
def mDemo : Model := Model.initial gaDemo "all()" 3 (some "x") none 0

/-- Demonstration model for the invalid-selection scenarios: the register
holds a complete saved selection but the current selection no longer resolves
to a change (spec section 6 sanctions this after a resync). -/
def c3Model : Model :=
  { Model.initial gaDemo "all()" 0 none none 0 with
    savedChangeId := some "abc"
    savedFilePath := some "f"
    savedLogIndex := some 2 }

/-- Demonstration model for the two-step symmetry scenarios: the same change
x is both saved and currently selected. -/
def c8Model : Model :=
  { Model.initial gaDemo "all()" 0 (some "x") none 0 with
    savedChangeId := some "x"
    savedFilePath := none
    savedLogIndex := some 0 }

/-- Demonstration run environment where git fetch fails and every other
invocation succeeds. -/
def runDemo : JjCommand → RunResult := fun c =>
  if c.args = ["git", "fetch"] then .failed "fetch error" else .ok "done"

/-- Demonstration world whose load always succeeds. -/
def wDemo : World := ⟨fun _ _ => .ok 7⟩

/-- Demonstration world whose load always fails. -/
def wFailDemo : World := ⟨fun _ _ => .error "revset parse error"⟩

/-- Children table of the interior a node of the concrete scenario tree. -/
def c2ChildrenA : List (KeyCode × CommandTreeNode) × HelpEntries :=
  addChild ([], []) "Abandon" "Selection" (.char 'a')
    (.newAction .abandon)

/-- The interior a node of the concrete scenario tree: children only. -/
def c2NodeA : CommandTreeNode := .mk (some c2ChildrenA) none

/-- Children table of the action-with-children i node of the concrete
scenario tree. -/
def c2ChildrenI : List (KeyCode × CommandTreeNode) × HelpEntries :=
  addChild ([], []) "Absorb into" "Select destination" .enter
    (.newAction .absorbInto)

/-- The i node of the concrete scenario tree: a save-selection action that
also opens a destination submenu, mirroring the source's
new_action_with_children registrations. -/
def c2NodeI : CommandTreeNode := .mk (some c2ChildrenI) (some .saveSelection)

/-- Concrete command tree fragment for the chord scenarios: the key a opens
an interior menu whose key a is the abandon action, and the key i is an
action-with-children node (save selection) whose Enter child is the absorb
destination action, mirroring the corresponding registrations of
CommandTree::new. -/
def c2Tree : CommandTreeNode :=
  .mk (some (addChild
    (addChild ([], []) "Commands" "Abandon" (.char 'a') c2NodeA)
    "Absorb" "From selection into destination" (.char 'i') c2NodeI)) none

/-- Lemma: charLe is transitive. -/
theorem charLe_trans : ∀ (x y z : List Char),
    charLe x y = true → charLe y z = true → charLe x z = true
  | [], _, _, _, _ => rfl
  | _ :: _, [], _, h1, _ => by simp [charLe] at h1
  | _ :: _, _ :: _, [], _, h2 => by simp [charLe] at h2
  | a :: as, b :: bs, c :: cs, h1, h2 => by
    simp only [charLe] at h1 h2 ⊢
    by_cases hab : a.toNat = b.toNat
    · by_cases hbc : b.toNat = c.toNat
      · have hac : a.toNat = c.toNat := by omega
        rw [if_pos hab] at h1
        rw [if_pos hbc] at h2
        rw [if_pos hac]
        exact charLe_trans as bs cs h1 h2
      · rw [if_pos hab] at h1
        rw [if_neg hbc] at h2
        have hlt : b.toNat < c.toNat := of_decide_eq_true h2
        have hac : ¬ a.toNat = c.toNat := by omega
        rw [if_neg hac]
        exact decide_eq_true (by omega)
    · rw [if_neg hab] at h1
      have hlt : a.toNat < b.toNat := of_decide_eq_true h1
      by_cases hbc : b.toNat = c.toNat
      · have hac : ¬ a.toNat = c.toNat := by omega
        rw [if_neg hac]
        exact decide_eq_true (by omega)
      · rw [if_neg hbc] at h2
        have hlt2 : b.toNat < c.toNat := of_decide_eq_true h2
        have hac : ¬ a.toNat = c.toNat := by omega
        rw [if_neg hac]
        exact decide_eq_true (by omega)

/-- Lemma: charLe is total. -/
theorem charLe_total : ∀ (x y : List Char),
    (charLe x y || charLe y x) = true
  | [], _ => by simp [charLe]
  | _ :: _, [] => by simp [charLe]
  | a :: as, b :: bs => by
    simp only [charLe]
    by_cases hab : a.toNat = b.toNat
    · rw [if_pos hab, if_pos hab.symm]
      exact charLe_total as bs
    · rw [if_neg hab, if_neg (fun h => hab h.symm)]
      rcases Nat.lt_or_ge a.toNat b.toNat with h | h
      · simp [decide_eq_true h]
      · have hlt : b.toNat < a.toNat := by omega
        simp [decide_eq_true hlt]

/-- Lemma: an element of an insertion is the inserted one or an original. -/
theorem mem_insertLe (le : α → α → Bool) (x z : α) :
    ∀ l : List α, z ∈ insertLe le x l → z = x ∨ z ∈ l
  | [], h => Or.inl (by simpa [insertLe] using h)
  | y :: ys, h => by
    simp only [insertLe] at h
    by_cases hxy : le x y = true
    · rw [if_pos hxy] at h
      rcases List.mem_cons.mp h with hz | hz
      · exact Or.inl hz
      · exact Or.inr hz
    · rw [if_neg hxy] at h
      rcases List.mem_cons.mp h with hz | hz
      · exact Or.inr (hz ▸ List.mem_cons_self y ys)
      · rcases mem_insertLe le x z ys hz with h1 | h1
        · exact Or.inl h1
        · exact Or.inr (List.mem_cons_of_mem y h1)

/-- Lemma: insertion preserves sortedness for a total transitive
comparator. -/
theorem pairwise_insertLe (le : α → α → Bool)
    (htot : ∀ a b, (le a b || le b a) = true)
    (htrans : ∀ a b c, le a b = true → le b c = true → le a c = true)
    (x : α) :
    ∀ l : List α, List.Pairwise (fun a b => le a b = true) l →
      List.Pairwise (fun a b => le a b = true) (insertLe le x l)
  | [], _ => by simp [insertLe]
  | y :: ys, hp => by
    simp only [insertLe]
    rcases List.pairwise_cons.mp hp with ⟨hy, hys⟩
    by_cases hxy : le x y = true
    · rw [if_pos hxy]
      refine List.pairwise_cons.mpr ⟨?_, hp⟩
      intro z hz
      rcases List.mem_cons.mp hz with rfl | hz
      · exact hxy
      · exact htrans x y z hxy (hy z hz)
    · rw [if_neg hxy]
      have hyx : le y x = true := by
        have h := htot x y
        simp only [hxy, Bool.false_or] at h
        exact h
      refine List.pairwise_cons.mpr
        ⟨?_, pairwise_insertLe le htot htrans x ys hys⟩
      intro z hz
      rcases mem_insertLe le x z ys hz with rfl | hz
      · exact hyx
      · exact hy z hz

/-- Lemma: the stable sort is sorted for a total transitive comparator. -/
theorem pairwise_sortByLe (le : α → α → Bool)
    (htot : ∀ a b, (le a b || le b a) = true)
    (htrans : ∀ a b c, le a b = true → le b c = true → le a c = true) :
    ∀ l : List α, List.Pairwise (fun a b => le a b = true) (sortByLe le l)
  | [] => by simp [sortByLe]
  | x :: xs => by
    simp only [sortByLe]
    exact pairwise_insertLe le htot htrans x (sortByLe le xs)
      (pairwise_sortByLe le htot htrans xs)

/-- Lemma: ticking the executor leaves a drained queue unchanged. -/
theorem processSteps_empty (runOf : JjCommand → RunResult) (w : World) :
    ∀ (n : Nat) (m : Model), m.queuedJjCommands = [] →
      Model.processSteps runOf w n m = .ok m
  | 0, _, _ => rfl
  | n + 1, m, h => by
    simp only [Model.processSteps, Model.processJjCommandQueue, h]
    exact processSteps_empty runOf w n m h

/-- Lemma: executor fuel composes. -/
theorem processSteps_add (runOf : JjCommand → RunResult) (w : World) :
    ∀ (a : Nat) {b : Nat} {m m1 : Model},
      Model.processSteps runOf w a m = .ok m1 →
      Model.processSteps runOf w (a + b) m = Model.processSteps runOf w b m1
  | 0, _, _, _, h => by
    simp only [Model.processSteps] at h
    cases h
    simp [Nat.zero_add]
  | a + 1, b, m, m1, h => by
    have hsucc : a + 1 + b = (a + b) + 1 := by omega
    rw [hsucc]
    simp only [Model.processSteps] at h ⊢
    cases hstep : Model.processJjCommandQueue runOf w m with
    | error e => rw [hstep] at h; cases h
    | ok m2 =>
      rw [hstep] at h
      exact processSteps_add runOf w a h

/-- Lemma: from a queue holding the listed good commands, a failing command,
and an arbitrary tail, draining the executor for one tick per good command
plus one stops at the failure with exactly their transcript on display, the
queue emptied, and the log state untouched. -/
theorem process_drain_fail (runOf : JjCommand → RunResult) (w : World) :
    ∀ (good : List JjCommand) (bad : JjCommand) (rest : List JjCommand)
      (m : Model),
      m.queuedJjCommands = good ++ bad :: rest →
      (∀ c ∈ good, ∃ out, runOf c = .ok out) →
      (∃ err, runOf bad = .failed err) →
      ∃ mf, Model.processSteps runOf w (good.length + 1) m = .ok mf ∧
        mf.infoList =
          some (failTranscript runOf m.accumulatedCommandOutput good bad) ∧
        mf.queuedJjCommands = [] ∧
        mf.jjLog = m.jjLog
  | [], bad, rest, m, hq, _, ⟨err, herr⟩ => by
    refine ⟨{ Model.clear m with
              infoList := some
                (accumStep runOf m.accumulatedCommandOutput bad) }, ?_, ?_, ?_, ?_⟩
    · simp only [List.length_nil, Nat.zero_add, Model.processSteps,
        Model.processJjCommandQueue, hq, List.nil_append, herr, accumStep,
        Model.clear]
    · simp only [failTranscript]
    · simp [Model.clear]
    · simp [Model.clear]
  | g :: gs, bad, rest, m, hq, hgood, hbad => by
    obtain ⟨out, hout⟩ := hgood g (List.mem_cons_self g gs)
    have hne : (gs ++ bad :: rest).isEmpty = false := by
      cases gs <;> simp
    have hstep : Model.processJjCommandQueue runOf w m =
        .ok (Model.updateInfoListForQueue
          { m with
            queuedJjCommands := gs ++ bad :: rest
            accumulatedCommandOutput :=
              accumStep runOf m.accumulatedCommandOutput g }) := by
      simp only [Model.processJjCommandQueue, hq, List.cons_append, hout, hne,
        accumStep, Bool.false_eq_true, if_false]
    obtain ⟨mf, hrun, hinfo, hqf, hlog⟩ :=
      process_drain_fail runOf w gs bad rest
        (Model.updateInfoListForQueue
          { m with
            queuedJjCommands := gs ++ bad :: rest
            accumulatedCommandOutput :=
              accumStep runOf m.accumulatedCommandOutput g })
        (by simp [Model.updateInfoListForQueue])
        (fun c hc => hgood c (List.mem_cons_of_mem g hc)) hbad
    refine ⟨mf, ?_, ?_, hqf, ?_⟩
    · have hlen : (g :: gs).length + 1 = (gs.length + 1) + 1 := by simp
      rw [hlen]
      simp only [Model.processSteps, hstep]
      exact hrun
    · rw [hinfo]
      simp [Model.updateInfoListForQueue, failTranscript]
    · rw [hlog]
      simp [Model.updateInfoListForQueue]

/-- C1: for every queue of descriptors dispatched to the executor, when the
good commands all succeed and the next fails, draining the loop (one queue
step per tick, any number of further idle ticks) leaves on display exactly
the transcript of the commands that ran, in invocation order, ending with
the failing command's error text; the transcript is a function of the ran
prefix alone, so nothing of the discarded tail appears; the queue is
emptied; and the log state is untouched, so no view-model resynchronization
happened. -/
theorem process_jj_command_queue_stops_at_first_failure
    (runOf : JjCommand → RunResult) (w : World) (m : Model)
    (good : List JjCommand) (bad : JjCommand) (rest : List JjCommand)
    (n : Nat)
    (hgood : ∀ c ∈ good, ∃ out, runOf c = .ok out)
    (hbad : ∃ err, runOf bad = .failed err) :
    ∃ mf,
      Model.processSteps runOf w (good.length + 1 + n)
        (Model.queueJjCommands m (good ++ bad :: rest)) = .ok mf ∧
      mf.infoList = some (failTranscript runOf [] good bad) ∧
      mf.queuedJjCommands = [] ∧
      mf.jjLog = m.jjLog := by
  have hq : (Model.queueJjCommands m (good ++ bad :: rest)).queuedJjCommands
      = good ++ bad :: rest := by
    simp [Model.queueJjCommands, Model.updateInfoListForQueue]
  obtain ⟨mf, hrun, hinfo, hqf, hlog⟩ :=
    process_drain_fail runOf w good bad rest _ hq hgood hbad
  refine ⟨mf, ?_, ?_, hqf, ?_⟩
  · rw [processSteps_add runOf w (good.length + 1) hrun]
    exact processSteps_empty runOf w n mf hqf
  · rw [hinfo]
    simp [Model.queueJjCommands, Model.updateInfoListForQueue]
  · rw [hlog]
    simp [Model.queueJjCommands, Model.updateInfoListForQueue]

/-- Witness for C1: the fetch-then-new-on-trunk queue where fetch fails
shows only the fetch transcript and leaves the log state of the demo model
untouched. -/
theorem process_jj_command_queue_stops_at_first_failure_witness :
    ∃ mf,
      Model.processSteps runDemo wDemo 2
        (Model.queueJjCommands mDemo
          ([] ++ JjCommand.fetch gaDemo :: [JjCommand.newAfterTrunk gaDemo]))
        = .ok mf ∧
      mf.infoList =
        some (failTranscript runDemo [] [] (JjCommand.fetch gaDemo)) ∧
      mf.queuedJjCommands = [] ∧
      mf.jjLog = mDemo.jjLog :=
  process_jj_command_queue_stops_at_first_failure runDemo wDemo mDemo []
    (JjCommand.fetch gaDemo) [JjCommand.newAfterTrunk gaDemo] 1
    (by simp) ⟨"fetch error", by decide⟩

/-- C2: one key appended to the chord resolves as the claim describes: a
missing edge leaves the chord as it was (Unresolved, unbound notice); a node
with children and no action shows its grouped help menu and keeps the chord;
an action node without children returns its message and clears the chord; an
action node with children returns its message, keeps the chord alive, and
shows the submenu. -/
theorem handle_command_key_resolution
    (tree : CommandTreeNode) (keys : List KeyCode) (info : Option RText)
    (k : KeyCode) :
    (get_node tree (keys ++ [k]) = none →
      handle_command_key tree keys info k =
        ⟨none, keys, displayUnboundErrorLines info k⟩) ∧
    (∀ cs, (∃ node, get_node tree (keys ++ [k]) = some node ∧
        node.action = none ∧ node.children = some cs) →
      handle_command_key tree keys info k =
        ⟨none, keys ++ [k], some (getHelp cs)⟩) ∧
    (∀ msg, (∃ node, get_node tree (keys ++ [k]) = some node ∧
        node.action = some msg ∧ node.children = none) →
      handle_command_key tree keys info k = ⟨some msg, [], info⟩) ∧
    (∀ msg cs, (∃ node, get_node tree (keys ++ [k]) = some node ∧
        node.action = some msg ∧ node.children = some cs) →
      handle_command_key tree keys info k =
        ⟨some msg, keys ++ [k], some (getHelp cs)⟩) := by
  refine ⟨?_, ?_, ?_, ?_⟩
  · intro h
    simp [handle_command_key, h]
  · rintro cs ⟨node, h, ha, hc⟩
    simp [handle_command_key, h, ha, hc]
  · rintro msg ⟨node, h, ha, hc⟩
    simp [handle_command_key, h, ha, hc]
  · rintro msg cs ⟨node, h, ha, hc⟩
    simp [handle_command_key, h, ha, hc]

/-- Witness for C2 on the concrete scenario tree: chord a shows the menu and
stays alive, chord a a resolves to the abandon action and clears, chord i
resolves to save-selection while keeping the chord alive with the submenu
shown, and chord a z is unresolved with the chord truncated back to a. -/
theorem handle_command_key_resolution_witness :
    handle_command_key c2Tree [] none (.char 'a') =
      ⟨none, [.char 'a'], some (getHelp c2ChildrenA)⟩ ∧
    handle_command_key c2Tree [.char 'a'] none (.char 'a') =
      ⟨some .abandon, [], none⟩ ∧
    handle_command_key c2Tree [] none (.char 'i') =
      ⟨some .saveSelection, [.char 'i'], some (getHelp c2ChildrenI)⟩ ∧
    handle_command_key c2Tree [.char 'a'] none (.char 'z') =
      ⟨none, [.char 'a'], displayUnboundErrorLines none (.char 'z')⟩ :=
  ⟨(handle_command_key_resolution c2Tree [] none (.char 'a')).2.1
      c2ChildrenA ⟨c2NodeA, rfl, rfl, rfl⟩,
   (handle_command_key_resolution c2Tree [.char 'a'] none (.char 'a')).2.2.1
      .abandon ⟨.newAction .abandon, rfl, rfl, rfl⟩,
   (handle_command_key_resolution c2Tree [] none (.char 'i')).2.2.2
      .saveSelection c2ChildrenI ⟨c2NodeI, rfl, rfl, rfl⟩,
   (handle_command_key_resolution c2Tree [.char 'a'] none (.char 'z')).1 rfl⟩

/-- C7: after an Unresolved result only the offending key is dropped: the
chord equals the accumulated prefix, its length is exactly one less than
just after appending the input, and no message is produced. -/
theorem chord_truncation_on_unresolved
    (tree : CommandTreeNode) (keys : List KeyCode) (info : Option RText)
    (k : KeyCode)
    (h : get_node tree (keys ++ [k]) = none) :
    (handle_command_key tree keys info k).keys = keys ∧
    (handle_command_key tree keys info k).keys.length + 1 =
      (keys ++ [k]).length ∧
    (handle_command_key tree keys info k).message = none := by
  simp [handle_command_key, h]

/-- Witness for C7: the unresolved chord a z on the scenario tree keeps the
prefix a. -/
theorem chord_truncation_on_unresolved_witness :
    (handle_command_key c2Tree [.char 'a'] none (.char 'z')).keys =
      [.char 'a'] ∧
    (handle_command_key c2Tree [.char 'a'] none (.char 'z')).keys.length + 1 =
      ([KeyCode.char 'a'] ++ [KeyCode.char 'z']).length ∧
    (handle_command_key c2Tree [.char 'a'] none (.char 'z')).message = none :=
  chord_truncation_on_unresolved c2Tree [.char 'a'] none (.char 'z') rfl

/-- Counterexample for C3: the rebase-branch-onto-destination builder with a
fully populated saved register and a vanished current selection produces the
Invalid selection notice and no invocation, but leaves the saved register
fully populated rather than cleared, contradicting the claim. -/
theorem invalid_selection_counterexample :
    (Model.jjRebaseBranchOntoDestination c3Model).infoList =
      some (textRaw "Invalid selection") ∧
    (Model.jjRebaseBranchOntoDestination c3Model).queuedJjCommands = [] ∧
    (Model.jjRebaseBranchOntoDestination c3Model).savedChangeId = some "abc" ∧
    (Model.jjRebaseBranchOntoDestination c3Model).savedFilePath = some "f" ∧
    (Model.jjRebaseBranchOntoDestination c3Model).savedLogIndex = some 2 ∧
    ¬ (Model.jjRebaseBranchOntoDestination c3Model).savedChangeId = none := by
  decide

/-- Amended C3: when a builder action fails its precondition (missing current
selection for the one-operand abandon, or missing saved register or current
selection for the two-operand rebase-branch-onto-destination), the result is
the Invalid selection notice and no invocation descriptor, the queue is
unchanged, and the saved-selection register is left untouched, not cleared
(the chord is cleared separately by the key handler when the action fires,
per the action-without-children case of the resolution theorem). -/
theorem invalid_selection_behavior (m : Model) :
    (m.selChangeId = none →
      Model.jjAbandon m = Model.invalidSelection m ∧
      (Model.jjAbandon m).infoList = some (textRaw "Invalid selection") ∧
      (Model.jjAbandon m).queuedJjCommands = m.queuedJjCommands ∧
      (Model.jjAbandon m).savedChangeId = m.savedChangeId ∧
      (Model.jjAbandon m).savedFilePath = m.savedFilePath ∧
      (Model.jjAbandon m).savedLogIndex = m.savedLogIndex) ∧
    (m.savedChangeId = none ∨ m.selChangeId = none →
      Model.jjRebaseBranchOntoDestination m = Model.invalidSelection m ∧
      (Model.jjRebaseBranchOntoDestination m).infoList =
        some (textRaw "Invalid selection") ∧
      (Model.jjRebaseBranchOntoDestination m).queuedJjCommands =
        m.queuedJjCommands ∧
      (Model.jjRebaseBranchOntoDestination m).savedChangeId =
        m.savedChangeId ∧
      (Model.jjRebaseBranchOntoDestination m).savedFilePath =
        m.savedFilePath ∧
      (Model.jjRebaseBranchOntoDestination m).savedLogIndex =
        m.savedLogIndex) := by
  constructor
  · intro hsel
    simp [Model.jjAbandon, hsel, Model.invalidSelection]
  · intro hor
    rcases hor with hsaved | hsel
    · simp [Model.jjRebaseBranchOntoDestination, hsaved,
        Model.invalidSelection]
    · cases hsaved : m.savedChangeId <;>
        simp [Model.jjRebaseBranchOntoDestination, hsaved, hsel,
          Model.invalidSelection]

/-- Witness for the amended C3 at the concrete register-populated state. -/
theorem invalid_selection_behavior_witness :
    Model.jjRebaseBranchOntoDestination c3Model =
      Model.invalidSelection c3Model ∧
    (Model.jjRebaseBranchOntoDestination c3Model).infoList =
      some (textRaw "Invalid selection") ∧
    (Model.jjRebaseBranchOntoDestination c3Model).queuedJjCommands =
      c3Model.queuedJjCommands ∧
    (Model.jjRebaseBranchOntoDestination c3Model).savedChangeId =
      c3Model.savedChangeId ∧
    (Model.jjRebaseBranchOntoDestination c3Model).savedFilePath =
      c3Model.savedFilePath ∧
    (Model.jjRebaseBranchOntoDestination c3Model).savedLogIndex =
      c3Model.savedLogIndex :=
  (invalid_selection_behavior c3Model).2 (Or.inr rfl)

/-- Counterexample for C4: a failing editor process makes the free-text input
service return an error (anyhow bail), not the None cancellation value the
claim asserts. -/
theorem editor_failure_counterexample :
    getInputFromEditor none none false "some text" =
      Except.error "Editor exited with non-zero status" ∧
    ∀ r : Option String,
      getInputFromEditor none none false "some text" ≠ Except.ok r := by
  constructor
  · rfl
  · intro r h
    simp [getInputFromEditor] at h

/-- Amended C4: the free-text service returns None exactly when the buffer is
empty after comment-stripping and trimming, and the caller treats that as
cancellation (Cancelled notice, no invocation queued); an editor process
failure is instead surfaced as an error; on non-cancellation the service
returns the trimmed text with every buffer line starting with the JJ: prefix
removed. -/
theorem editor_input_behavior (st ht : Option String) (c : String)
    (m : Model) :
    (getInputFromEditor st ht false c =
      Except.error "Editor exited with non-zero status") ∧
    (stripJjComments c = "" →
      getInputFromEditor st ht true c = Except.ok none ∧
      Model.jjParallelizeRevset m true c = Except.ok (Model.cancelled m) ∧
      (Model.cancelled m).infoList = some (textRaw "Cancelled") ∧
      (Model.cancelled m).queuedJjCommands = m.queuedJjCommands) ∧
    (stripJjComments c ≠ "" →
      getInputFromEditor st ht true c = Except.ok (some (stripJjComments c)) ∧
      Model.jjParallelizeRevset m true c = Except.ok
        (Model.queueJjCommands m
          [JjCommand.parallelize (stripJjComments c) m.globalArgs])) := by
  refine ⟨rfl, ?_, ?_⟩
  · intro hempty
    simp [getInputFromEditor, Model.jjParallelizeRevset, hempty,
      Model.cancelled]
  · intro hne
    simp [getInputFromEditor, Model.jjParallelizeRevset, hne]

/-- Witness for the amended C4: a buffer holding only comment lines cancels
the parallelize-revset action, and a buffer with surrounding whitespace and
a comment line yields the stripped trimmed text. -/
theorem editor_input_behavior_witness :
    getInputFromEditor none none true "\n\nJJ: Enter the revset" =
      Except.ok none ∧
    Model.jjParallelizeRevset mDemo true "\n\nJJ: Enter the revset" =
      Except.ok (Model.cancelled mDemo) ∧
    getInputFromEditor none none true "  all()  \nJJ: hint" =
      Except.ok (some "all()") ∧
    getInputFromEditor none none false "x" =
      Except.error "Editor exited with non-zero status" :=
  ⟨((editor_input_behavior none none "\n\nJJ: Enter the revset" mDemo).2.1
      (by decide)).1,
   ((editor_input_behavior none none "\n\nJJ: Enter the revset" mDemo).2.1
      (by decide)).2.1,
   (by
     have h := ((editor_input_behavior none none "  all()  \nJJ: hint"
        mDemo).2.2 (by decide)).1
     have hs : stripJjComments "  all()  \nJJ: hint" = "all()" := by decide
     rw [hs] at h
     exact h),
   (editor_input_behavior none none "x" mDemo).1⟩

/-- Counterexample for C5: after an unbound x, a different unbound z does not
start a new notice line after a blank separator (which would leave three
lines, the x line among them); the single existing unbound line is replaced
in place, because the deduplication compares only the constant marker span,
not the key. -/
theorem unbound_switch_key_counterexample :
    displayUnboundErrorLines
      (displayUnboundErrorLines none (.char 'x')) (.char 'z') =
      some [unboundErrorLine (.char 'z')] ∧
    (displayUnboundErrorLines
      (displayUnboundErrorLines none (.char 'x')) (.char 'z')).map
        List.length = some 1 := by
  decide

/-- Amended C5: repeated unbound keys collapse onto the same visible line,
and so does switching to a different unbound key (replacement keyed on the
constant Unbound-suffix marker, not on the key); the separating blank line
appears only between a pre-existing non-unbound notice and the single
unbound line. -/
theorem unbound_display_behavior (k1 k2 : KeyCode) (t : RText)
    (hfirst : (t.headD []).headD (Span.raw "") ≠ unboundMarker)
    (hlast : (t.getLastD []).headD (Span.raw "") ≠ unboundMarker) :
    displayUnboundErrorLines (displayUnboundErrorLines none k1) k2 =
      some [unboundErrorLine k2] ∧
    displayUnboundErrorLines (some t) k1 =
      some (t ++ [[], unboundErrorLine k1]) ∧
    displayUnboundErrorLines (displayUnboundErrorLines (some t) k1) k2 =
      some (t ++ [[], unboundErrorLine k2]) := by
  have hstep : ∀ k : KeyCode, displayUnboundErrorLines (some t) k =
      some (t ++ [[], unboundErrorLine k]) := by
    intro k
    simp only [displayUnboundErrorLines]
    rw [if_pos (decide_eq_true hfirst), if_neg (fun hcon => hlast hcon.2)]
    simp
  have hsplit : ∀ k : KeyCode, t ++ [[], unboundErrorLine k] =
      (t ++ [([] : RLine)]) ++ [unboundErrorLine k] := by
    intro k
    simp
  have hlast2 : ∀ k : KeyCode,
      ((t ++ [[], unboundErrorLine k]).getLastD []) = unboundErrorLine k := by
    intro k
    rw [hsplit]
    exact List.getLastD_concat _ _ _
  have hdrop : ∀ k : KeyCode,
      (t ++ [[], unboundErrorLine k]).dropLast.dropLast = t := by
    intro k
    rw [hsplit, List.dropLast_concat, List.dropLast_concat]
  have hhead : ∀ k : KeyCode,
      ((t ++ [[], unboundErrorLine k]).headD []).headD (Span.raw "") ≠
        unboundMarker := by
    intro k
    cases t with
    | nil =>
      simp [Span.raw, unboundMarker, Span.fgc]
    | cons a t' =>
      simpa using hfirst
  have hpop : ∀ k : KeyCode,
      ((t ++ [[], unboundErrorLine k]).getLastD [] ≠ [] ∧
        ((t ++ [[], unboundErrorLine k]).getLastD []).headD (Span.raw "") =
          unboundMarker) := by
    intro k
    rw [hlast2]
    exact ⟨by simp [unboundErrorLine], rfl⟩
  refine ⟨?_, hstep k1, ?_⟩
  · simp [displayUnboundErrorLines, unboundErrorLine, unboundMarker]
  · rw [hstep k1]
    simp only [displayUnboundErrorLines]
    rw [if_pos (decide_eq_true (hhead k1)), if_pos (hpop k1), hdrop k1]
    simp

/-- Witness for the amended C5 over the Invalid selection base notice. -/
theorem unbound_display_behavior_witness :
    displayUnboundErrorLines
      (displayUnboundErrorLines none (.char 'x')) (.char 'z') =
      some [unboundErrorLine (.char 'z')] ∧
    displayUnboundErrorLines (some (textRaw "Invalid selection"))
      (.char 'x') =
      some (textRaw "Invalid selection" ++ [[], unboundErrorLine (.char 'x')]) ∧
    displayUnboundErrorLines
      (displayUnboundErrorLines (some (textRaw "Invalid selection"))
        (.char 'x')) (.char 'z') =
      some (textRaw "Invalid selection" ++
        [[], unboundErrorLine (.char 'z')]) :=
  unbound_display_behavior (.char 'x') (.char 'z')
    (textRaw "Invalid selection") (by decide) (by decide)

/-- Counterexample for C6: the Abandon group of the a node's help listing
comes back sorted by key label (a, b, d), an order that is not sorted
case-insensitively by description, since Selection (retain bookmarks)
precedes Selection (restore descendants) while comparing greater. -/
theorem help_entries_description_sort_counterexample :
    getHelpEntries abandonChildren =
      [("Abandon",
        [("a", "Selection"),
         ("b", "Selection (retain bookmarks)"),
         ("d", "Selection (restore descendants)")])] ∧
    ¬ List.Pairwise (fun a b => descriptionLe a b = true)
      [("a", "Selection"),
       ("b", "Selection (retain bookmarks)"),
       ("d", "Selection (restore descendants)")] := by
  constructor
  · decide
  · decide

/-- Amended C6: for every children table, the help listing keeps the groups
under their registration labels and sorts the entries of each group
case-insensitively by their key label (the first pair component), not by the
description. -/
theorem help_entries_sorted_by_key_label
    (cs : List (KeyCode × CommandTreeNode) × HelpEntries)
    (g : String) (entries : List (String × String))
    (hmem : (g, entries) ∈ getHelpEntries cs) :
    List.Pairwise (fun a b => keyLabelLe a b = true) entries := by
  simp only [getHelpEntries, List.mem_map] at hmem
  obtain ⟨orig, _, heq⟩ := hmem
  have hentries : entries = sortByLe keyLabelLe orig.2 := by
    have h := congrArg Prod.snd heq
    simpa using h.symm
  rw [hentries]
  exact pairwise_sortByLe keyLabelLe
    (fun a b => charLe_total _ _)
    (fun a b c hab hbc => charLe_trans _ _ _ hab hbc) orig.2

/-- Witness for the amended C6 at the Abandon group of the a node. -/
theorem help_entries_sorted_by_key_label_witness :
    List.Pairwise (fun a b => keyLabelLe a b = true)
      [("a", "Selection"),
       ("b", "Selection (retain bookmarks)"),
       ("d", "Selection (restore descendants)")] :=
  help_entries_sorted_by_key_label abandonChildren "Abandon"
    [("a", "Selection"),
     ("b", "Selection (retain bookmarks)"),
     ("d", "Selection (restore descendants)")] (by decide)

/-- Counterexample for C8: in the duplicate family, the destination variant
applied after saving the same element that is currently selected builds the
four-token vector duplicate x --onto x while the single-element variant
builds the two-token vector duplicate x, so the two argument vectors do not
share a shape. -/
theorem two_step_shape_counterexample :
    (Model.jjDuplicateOnto c8Model).queuedJjCommands.map JjCommand.args =
      [["duplicate", "x", "--onto", "x"]] ∧
    (Model.jjDuplicate c8Model).queuedJjCommands.map JjCommand.args =
      [["duplicate", "x"]] ∧
    (Model.jjDuplicateOnto c8Model).queuedJjCommands.map
        (fun c => c.args.length) ≠
      (Model.jjDuplicate c8Model).queuedJjCommands.map
        (fun c => c.args.length) := by
  decide

/-- Amended C8: the symmetry holds for the families that synthesize revsets
(parallelize, sign, unsign): save-selection then the range variant with the
same element selected both times builds an invocation of the same shape
(same command tokens, one synthesized revset operand) as the single-element
variant, the revsets being the inclusive range from::to (here id::id) and
id-::id for the change with its immediate successors; families whose
destination variant passes the second operand through an explicit flag, such
as duplicate --onto, build a longer argument vector instead. -/
theorem two_step_revset_symmetry (m : Model) (id : String)
    (hsaved : m.savedChangeId = some id) (hsel : m.selChangeId = some id) :
    (Model.jjParallelizeRange m).queuedJjCommands =
      [JjCommand.parallelize (id ++ "::" ++ id) m.globalArgs] ∧
    (Model.jjParallelize m).queuedJjCommands =
      [JjCommand.parallelize (id ++ "-::" ++ id) m.globalArgs] ∧
    (Model.jjParallelizeRange m).queuedJjCommands.map
        (fun c => c.args.length) =
      (Model.jjParallelize m).queuedJjCommands.map
        (fun c => c.args.length) ∧
    (Model.jjParallelizeRange m).queuedJjCommands.map
        (fun c => c.args.take 1) =
      (Model.jjParallelize m).queuedJjCommands.map
        (fun c => c.args.take 1) ∧
    (Model.jjSignRange m).queuedJjCommands =
      [JjCommand.sign (id ++ "::" ++ id) m.globalArgs] ∧
    (Model.jjSign m).queuedJjCommands =
      [JjCommand.sign id m.globalArgs] ∧
    (Model.jjSignRange m).queuedJjCommands.map
        (fun c => c.args.take 2) =
      (Model.jjSign m).queuedJjCommands.map
        (fun c => c.args.take 2) ∧
    (Model.jjUnsignRange m).queuedJjCommands =
      [JjCommand.unsign (id ++ "::" ++ id) m.globalArgs] ∧
    (Model.jjUnsign m).queuedJjCommands =
      [JjCommand.unsign id m.globalArgs] ∧
    (Model.jjUnsignRange m).queuedJjCommands.map
        (fun c => c.args.take 2) =
      (Model.jjUnsign m).queuedJjCommands.map
        (fun c => c.args.take 2) := by
  simp [Model.jjParallelizeRange, Model.jjParallelize, Model.jjSignRange,
    Model.jjSign, Model.jjUnsignRange, Model.jjUnsign, hsaved, hsel,
    Model.queueJjCommands, Model.updateInfoListForQueue,
    JjCommand.parallelize, JjCommand.sign, JjCommand.unsign, JjCommand.make]

/-- Witness for the amended C8 with the change x saved and selected. -/
theorem two_step_revset_symmetry_witness :
    (Model.jjParallelizeRange c8Model).queuedJjCommands =
      [JjCommand.parallelize ("x" ++ "::" ++ "x") c8Model.globalArgs] ∧
    (Model.jjParallelize c8Model).queuedJjCommands =
      [JjCommand.parallelize ("x" ++ "-::" ++ "x") c8Model.globalArgs] ∧
    (Model.jjParallelizeRange c8Model).queuedJjCommands.map
        (fun c => c.args.length) =
      (Model.jjParallelize c8Model).queuedJjCommands.map
        (fun c => c.args.length) ∧
    (Model.jjParallelizeRange c8Model).queuedJjCommands.map
        (fun c => c.args.take 1) =
      (Model.jjParallelize c8Model).queuedJjCommands.map
        (fun c => c.args.take 1) ∧
    (Model.jjSignRange c8Model).queuedJjCommands =
      [JjCommand.sign ("x" ++ "::" ++ "x") c8Model.globalArgs] ∧
    (Model.jjSign c8Model).queuedJjCommands =
      [JjCommand.sign "x" c8Model.globalArgs] ∧
    (Model.jjSignRange c8Model).queuedJjCommands.map
        (fun c => c.args.take 2) =
      (Model.jjSign c8Model).queuedJjCommands.map
        (fun c => c.args.take 2) ∧
    (Model.jjUnsignRange c8Model).queuedJjCommands =
      [JjCommand.unsign ("x" ++ "::" ++ "x") c8Model.globalArgs] ∧
    (Model.jjUnsign c8Model).queuedJjCommands =
      [JjCommand.unsign "x" c8Model.globalArgs] ∧
    (Model.jjUnsignRange c8Model).queuedJjCommands.map
        (fun c => c.args.take 2) =
      (Model.jjUnsign c8Model).queuedJjCommands.map
        (fun c => c.args.take 2) :=
  two_step_revset_symmetry c8Model "x" rfl rfl

/-- Lemma: a notice-only mutation keeps the register. -/
theorem reg_invalidSelection (m : Model) :
    regEq (Model.invalidSelection m) m := by
  simp [Model.invalidSelection, regEq]

/-- Lemma: the Cancelled notice keeps the register. -/
theorem reg_cancelled (m : Model) : regEq (Model.cancelled m) m := by
  simp [Model.cancelled, regEq]

/-- Lemma: enqueuing commands keeps the register. -/
theorem reg_queueJjCommands (m : Model) (cmds : List JjCommand) :
    regEq (Model.queueJjCommands m cmds) m := by
  simp [Model.queueJjCommands, Model.updateInfoListForQueue, regEq]

/-- Lemma: every embedded single-operand builder keeps the register. -/
theorem reg_one_operand_builders (m : Model) :
    regEq (Model.jjAbandon m) m ∧ regEq (Model.jjDuplicate m) m ∧
    regEq (Model.jjParallelize m) m ∧ regEq (Model.jjSign m) m ∧
    regEq (Model.jjUnsign m) m := by
  cases hsel : m.selChangeId <;>
    simp [Model.jjAbandon, Model.jjDuplicate, Model.jjParallelize,
      Model.jjSign, Model.jjUnsign, hsel, Model.invalidSelection,
      Model.queueJjCommands, Model.updateInfoListForQueue, regEq]

/-- Lemma: every embedded two-operand builder keeps the register. -/
theorem reg_two_operand_builders (m : Model) :
    regEq (Model.jjDuplicateOnto m) m ∧
    regEq (Model.jjParallelizeRange m) m ∧
    regEq (Model.jjSignRange m) m ∧
    regEq (Model.jjUnsignRange m) m ∧
    regEq (Model.jjRebaseBranchOntoDestination m) m := by
  cases hsaved : m.savedChangeId <;> cases hsel : m.selChangeId <;>
    simp [Model.jjDuplicateOnto, Model.jjParallelizeRange,
      Model.jjSignRange, Model.jjUnsignRange,
      Model.jjRebaseBranchOntoDestination, hsaved, hsel,
      Model.invalidSelection, Model.queueJjCommands,
      Model.updateInfoListForQueue, regEq]

/-- Lemma: the compound fetch-then-new builder keeps the register. -/
theorem reg_newAfterTrunkSync (m : Model) :
    regEq (Model.jjNewAfterTrunkSync m) m := by
  simp [Model.jjNewAfterTrunkSync, Model.queueJjCommands,
    Model.updateInfoListForQueue, regEq]

/-- Lemma: the parallelize-revset builder keeps the register. -/
theorem reg_parallelizeRevset (m m1 : Model) (editorExitOk : Bool)
    (contents : String)
    (h : Model.jjParallelizeRevset m editorExitOk contents = .ok m1) :
    regEq m1 m := by
  simp only [Model.jjParallelizeRevset] at h
  cases hi : getInputFromEditor none (some "Enter the revset to parallelize")
      editorExitOk contents with
  | error e => rw [hi] at h; cases h
  | ok r =>
    rw [hi] at h
    cases r with
    | none =>
      cases h
      exact reg_cancelled m
    | some revset =>
      cases h
      exact reg_queueJjCommands m _

/-- Lemma: a log reload keeps the register. -/
theorem reg_sync (w : World) (m m1 : Model)
    (h : Model.sync w m = .ok m1) : regEq m1 m := by
  simp only [Model.sync] at h
  cases hl : w.load m.globalArgs m.revset with
  | error e => rw [hl] at h; cases h
  | ok l =>
    rw [hl] at h
    cases h
    simp [regEq]

/-- Lemma: set-revset keeps the register on every recovered path. -/
theorem reg_setRevset (w : World) (m m1 : Model) (editorExitOk : Bool)
    (contents : String)
    (h : Model.setRevset w m editorExitOk contents = .ok m1) :
    regEq m1 m := by
  simp only [Model.setRevset] at h
  split at h
  · cases h
  · cases h
    exact reg_cancelled m
  · split at h
    · cases h
      exact ⟨rfl, rfl, rfl⟩
    · cases h
      rename_i m2 hs
      have h2 := reg_sync w _ m2 hs
      rcases h2 with ⟨h2a, h2b, h2c⟩
      exact ⟨by simpa using h2a, by simpa using h2b, by simpa using h2c⟩

/-- Lemma: a queue-processing tick either keeps the register untouched or
clears it wholesale together with the rest of the transient state. -/
theorem reg_processJjCommandQueue (runOf : JjCommand → RunResult) (w : World)
    (m m1 : Model)
    (h : Model.processJjCommandQueue runOf w m = .ok m1) :
    regEq m1 m ∨ regCleared m1 := by
  simp only [Model.processJjCommandQueue] at h
  split at h
  · cases h
    exact Or.inl ⟨rfl, rfl, rfl⟩
  · split at h
    · split at h
      · split at h
        · right
          have hreg := reg_sync w _ m1 h
          rcases hreg with ⟨h1, h2, h3⟩
          exact ⟨by simpa [Model.clear] using h1,
                 by simpa [Model.clear] using h2,
                 by simpa [Model.clear] using h3⟩
        · cases h
          right
          exact ⟨rfl, rfl, rfl⟩
      · cases h
        left
        exact ⟨rfl, rfl, rfl⟩
    · cases h
      right
      exact ⟨rfl, rfl, rfl⟩
    · cases h

/-- Lemma: register agreement transports the consistency implication. -/
theorem reg_inv_transport (m m1 : Model) (h : regEq m1 m)
    (ih : m.savedChangeId = none →
      m.savedFilePath = none ∧ m.savedLogIndex = none)
    (hn : m1.savedChangeId = none) :
    m1.savedFilePath = none ∧ m1.savedLogIndex = none := by
  rcases h with ⟨h1, h2, h3⟩
  rw [h1] at hn
  rw [h2, h3]
  exact ih hn

/-- C9: in every state reachable through the embedded operations, the
saved-selection register is set or cleared as a unit: an absent saved change
identifier implies the saved file path and the saved list position are
absent too. -/
theorem saved_register_consistency (m : Model) (h : Reach m)
    (hnone : m.savedChangeId = none) :
    m.savedFilePath = none ∧ m.savedLogIndex = none := by
  induction h with
  | init ga revset log selC selF selIdx => exact ⟨rfl, rfl⟩
  | clearStep hr ih => exact ⟨rfl, rfl⟩
  | cancelledStep hr ih =>
    rename_i mm
    exact reg_inv_transport mm _ (reg_cancelled mm) (fun hn => ih hn) hnone
  | invalidStep hr ih =>
    rename_i mm
    exact reg_inv_transport mm _ (reg_invalidSelection mm) (fun hn => ih hn)
      hnone
  | selectStep selC selF selIdx hr ih =>
    rename_i mm
    exact reg_inv_transport mm _ ⟨rfl, rfl, rfl⟩ (fun hn => ih hn) hnone
  | keyStep tree k hr ih =>
    rename_i mm
    exact reg_inv_transport mm _ ⟨rfl, rfl, rfl⟩ (fun hn => ih hn) hnone
  | saveStep hr ih =>
    rename_i mm
    cases hsel : mm.selChangeId with
    | none =>
      simp [Model.saveSelection, hsel, Model.invalidSelection, Model.clear]
    | some id =>
      simp only [Model.saveSelection, hsel] at hnone
      cases hnone
  | abandonStep hr ih =>
    rename_i mm
    exact reg_inv_transport mm _ (reg_one_operand_builders mm).1
      (fun hn => ih hn) hnone
  | duplicateStep hr ih =>
    rename_i mm
    exact reg_inv_transport mm _ (reg_one_operand_builders mm).2.1
      (fun hn => ih hn) hnone
  | duplicateOntoStep hr ih =>
    rename_i mm
    exact reg_inv_transport mm _ (reg_two_operand_builders mm).1
      (fun hn => ih hn) hnone
  | parallelizeStep hr ih =>
    rename_i mm
    exact reg_inv_transport mm _ (reg_one_operand_builders mm).2.2.1
      (fun hn => ih hn) hnone
  | parallelizeRangeStep hr ih =>
    rename_i mm
    exact reg_inv_transport mm _ (reg_two_operand_builders mm).2.1
      (fun hn => ih hn) hnone
  | parallelizeRevsetStep editorExitOk contents hr hok ih =>
    rename_i mm m1
    exact reg_inv_transport mm m1
      (reg_parallelizeRevset mm m1 editorExitOk contents hok)
      (fun hn => ih hn) hnone
  | signStep hr ih =>
    rename_i mm
    exact reg_inv_transport mm _ (reg_one_operand_builders mm).2.2.2.1
      (fun hn => ih hn) hnone
  | signRangeStep hr ih =>
    rename_i mm
    exact reg_inv_transport mm _ (reg_two_operand_builders mm).2.2.1
      (fun hn => ih hn) hnone
  | unsignStep hr ih =>
    rename_i mm
    exact reg_inv_transport mm _ (reg_one_operand_builders mm).2.2.2.2
      (fun hn => ih hn) hnone
  | unsignRangeStep hr ih =>
    rename_i mm
    exact reg_inv_transport mm _ (reg_two_operand_builders mm).2.2.2.1
      (fun hn => ih hn) hnone
  | rebaseBranchOntoDestinationStep hr ih =>
    rename_i mm
    exact reg_inv_transport mm _ (reg_two_operand_builders mm).2.2.2.2
      (fun hn => ih hn) hnone
  | newAfterTrunkSyncStep hr ih =>
    rename_i mm
    exact reg_inv_transport mm _ (reg_newAfterTrunkSync mm)
      (fun hn => ih hn) hnone
  | syncStep w hr hok ih =>
    rename_i mm m1
    exact reg_inv_transport mm m1 (reg_sync w mm m1 hok)
      (fun hn => ih hn) hnone
  | setRevsetStep w editorExitOk contents hr hok ih =>
    rename_i mm m1
    exact reg_inv_transport mm m1
      (reg_setRevset w mm m1 editorExitOk contents hok)
      (fun hn => ih hn) hnone
  | processStep runOf w hr hok ih =>
    rename_i mm m1
    rcases reg_processJjCommandQueue runOf w mm m1 hok with hreg | hreg
    · exact reg_inv_transport mm m1 hreg (fun hn => ih hn) hnone
    · exact ⟨hreg.2.1, hreg.2.2⟩

/-- Witness for C9: the freshly initialized model is reachable with an empty
register, and the invariant evaluates there. -/
theorem saved_register_consistency_witness :
    (Model.initial gaDemo "all()" 3 (some "x") none 0).savedFilePath = none ∧
    (Model.initial gaDemo "all()" 3 (some "x") none 0).savedLogIndex = none :=
  saved_register_consistency _
    (Reach.init gaDemo "all()" 3 (some "x") none 0) rfl

/-- C10: set-revset is atomic on failure.  When the user supplies a new
revset (nonempty after comment-stripping) and reloading the log with it
fails, the model keeps its previous revset and log state and only the notice
changes to the error text; only on a successful reload does the revset field
keep the new value, with the log replaced and the confirmation notice
shown. -/
theorem set_revset_atomic_on_failure (w : World) (m : Model) (c : String)
    (hc : stripJjComments c ≠ "") :
    (∀ err, w.load m.globalArgs (stripJjComments c) = .error err →
      Model.setRevset w m true c =
        .ok { m with infoList := some (displayErrorLines err) }) ∧
    (∀ l, w.load m.globalArgs (stripJjComments c) = .ok l →
      Model.setRevset w m true c =
        .ok { m with
              revset := stripJjComments c
              jjLog := l
              infoList := some (textRaw ("Revset set to " ++ sq ++
                stripJjComments c ++ sq)) }) := by
  constructor
  · intro err herr
    simp [Model.setRevset, getInputFromEditor, hc, Model.sync, herr]
  · intro l hl
    simp [Model.setRevset, getInputFromEditor, hc, Model.sync, hl]

/-- Witness for C10: reloading testers() fails in the failing demo world and
leaves the demo model's revset and log untouched, while the succeeding demo
world installs it. -/
theorem set_revset_atomic_on_failure_witness :
    Model.setRevset wFailDemo mDemo true "testers()" =
      .ok { mDemo with
            infoList := some (displayErrorLines "revset parse error") } ∧
    (Model.setRevset wFailDemo mDemo true "testers()").map
        (fun m1 => m1.revset) = .ok mDemo.revset ∧
    Model.setRevset wDemo mDemo true "testers()" =
      .ok { mDemo with
            revset := "testers()"
            jjLog := 7
            infoList := some (textRaw ("Revset set to " ++ sq ++
              "testers()" ++ sq)) } := by
  have hs : stripJjComments "testers()" = "testers()" := by decide
  have h1 := (set_revset_atomic_on_failure wFailDemo mDemo "testers()"
    (by decide)).1 "revset parse error" (by rw [hs]; rfl)
  have h2 := (set_revset_atomic_on_failure wDemo mDemo "testers()"
    (by decide)).2 7 (by rw [hs]; rfl)
  rw [hs] at h2
  refine ⟨h1, ?_, h2⟩
  rw [h1]
  rfl

end Jjdag
